import Mathlib

/-!
# Verification of the base-routes dispatcher (src/index.js)

A shallow embedding of the dispatcher triad `handle` / `handleOnce` /
`handleError` of base-routes, together with the synthesized fallback
callback of `handle`. External collaborators (the en-route router's
middleware execution, the named collection looked up on the host, and the
template-error `rethrow` facility) are modelled as explicit parameters,
since the repository consumes them as opaque capabilities.

Callbacks are modelled by presence flags (a JS callback slot is either a
function or absent) and by the observable call they finally receive; the
side effects of a dispatch (event emission, middleware execution,
delegation to the collection, rethrow invocation) are recorded in a trace.
-/

namespace BaseRoutes

/-- An error object flowing through the middleware chain. `handled` models
the `_handled` flag, `stack` the (possibly absent) stack-trace string,
`source`/`reason` the enrichment fields set by `handleError`,
`fileAttached` the `err.file` back-reference, and `isReferenceError`
whether `err instanceof ReferenceError` holds. -/
structure Err where
  handled : Bool
  stack : Option String
  source : Option String
  reason : Option String
  fileAttached : Bool
  isReferenceError : Bool
deriving Repr, DecidableEq

/-- The `file.options` bag: `handled` is the ordered list of verbs already
dispatched (absent until lazily created), `method` the verb of the most
recent dispatch, `collection` the optional name of a host collection. -/
structure FileOptions where
  handled : Option (List String)
  method : Option String
  collection : Option String
deriving Repr, DecidableEq

/-- A file/view record. `options` is absent until normalized by `handle`
(`handleOnce` does not normalize it). `hasNext` models whether `file.next`
is a callable. -/
structure File where
  path : String
  basename : String
  content : String
  data : String
  options : Option FileOptions
  hasNext : Bool
deriving Repr, DecidableEq

/-- Host-application configuration consulted by the dispatcher: `name` is
`app._name` (used in the enrichment `reason`), `isTemplates` /
`isCollection` are the duck-typed capability flags of the two-phase branch,
and `hasErrorListeners` models `app.hasListeners("error")`. -/
structure AppCfg where
  name : String
  isTemplates : Bool
  isCollection : Bool
  hasErrorListeners : Bool
deriving Repr, DecidableEq

/-- A named collection on the host, an external collaborator
(`this[file.options.collection]`). Its `handle` is opaque to this
repository; `resp` is the argument with which it eventually invokes the
callback handed to it (`none` on success, `some e` on error). -/
structure Collection where
  resp : Option Err
deriving Repr, DecidableEq

/-- One middleware step of the router's stack for the dispatched verb:
an identifier and the error (if any) it passes to its continuation.
The en-route router runs these strictly in registration order. -/
abbrev MW := Nat × Option Err

/-- Observable side effects of a dispatch, in order of occurrence. -/
inductive Action where
  | emitVerb (verb : String)
  | mwRun (phase : Nat) (id : Nat)
  | collEnter (verb : String)
  | emitError
  | rethrowCall (content data : String)
deriving Repr, DecidableEq

/-- The call finally made to a resolved callback: `next(null, file)`,
`next()` with no arguments, or `next(err)`. -/
inductive NextCall where
  | nullFile (f : File)
  | noArgs
  | withErr (e : Err)
deriving Repr, DecidableEq

/-- Outcome of invoking the callback produced by `handleError`: either a
synchronous raise escaping the callback, or an invocation of `next`. -/
inductive CbResult where
  | thrown (msg : String)
  | called (c : NextCall)
deriving Repr, DecidableEq

/-- Splitting of a character list at every occurrence of the separator,
the semantics of JS `String.prototype.split` with a one-character
separator: `"a\nb".split("\n") = ["a","b"]`, `"".split("\n") = [""]`,
`"a\n".split("\n") = ["a",""]`. -/
def splitOnChar (c : Char) : List Char → List (List Char)
  | [] => [[]]
  | x :: xs =>
    let r := splitOnChar c xs
    if x = c then [] :: r
    else
      match r with
      | [] => [[x]]
      | y :: ys => (x :: y) :: ys

/-- Removal of leading and trailing whitespace from a character list, the
semantics of JS `String.prototype.trim`. -/
def trimChars (l : List Char) : List Char :=
  ((l.dropWhile Char.isWhitespace).reverse.dropWhile Char.isWhitespace).reverse

/-- Does the error's stack support the enrichment's second-line access
(`err.stack.split("\n")[1].trim()`)? True exactly when `stack` is present
and splits into at least two lines. -/
def stackOk (e : Err) : Bool :=
  match e.stack with
  | none => false
  | some s => 2 ≤ (splitOnChar '\n' s.data).length

/-- Enrichment of a first-sighting error (src/index.js lines 149-152).
Mirrors the statement order of the source: `_handled` is set first, so a
raise while reading the stack still leaves the error marked handled.
Returns the mutated error and `some msg` when the field access raised. -/
def enrichErr (appName method path : String) (e : Err) : Err × Option String :=
  let e1 := { e with handled := true }
  match e.stack with
  | none => (e1, some "Cannot read property split of undefined")
  | some s =>
    match (splitOnChar '\n' s.data)[1]? with
    | none => (e1, some "Cannot read property trim of undefined")
    | some line =>
      ({ e1 with
          source := some (String.mk (trimChars line)),
          reason := some (appName ++ "#handle(\"" ++ method ++ "\"): " ++ path),
          fileAttached := true }, none)

/-- Result of one invocation of the callback returned by `handleError`:
its trace of side effects, the call it made (or the raise that escaped),
and the state of the error object afterwards. -/
structure HEOut where
  trace : List Action
  result : CbResult
  errAfter : Option Err
deriving Repr, DecidableEq

/-- Guard message of the missing-callback check in `handleError`. -/
def cbGuardMsg : String := "expected a callback function"

/-- One invocation of the callback returned by
`handleError(method, file, next)` (src/index.js lines 134-176).
`hasNextArg` records whether the bound `next` argument is a callable;
resolution falls back to `file.next`. `rethrow` is the external
template-error facility: `some e2` models it throwing `e2`, `none` models
it returning normally. -/
def handleErrorCb (app : AppCfg) (method : String) (file : File)
    (hasNextArg : Bool) (rethrow : String → String → Option Err)
    (err : Option Err) : HEOut :=
  if (hasNextArg || file.hasNext) = false then
    { trace := [], result := .thrown cbGuardMsg, errAfter := err }
  else
    match err with
    | none => { trace := [], result := .called (.nullFile file), errAfter := none }
    | some e =>
      if e.handled then
        { trace := [], result := .called .noArgs, errAfter := some e }
      else
        match enrichErr app.name method file.path e with
        | (e1, some m) => { trace := [], result := .thrown m, errAfter := some e1 }
        | (e1, none) =>
          let t0 := if app.hasErrorListeners then [Action.emitError] else []
          if e1.isReferenceError then
            match rethrow file.content file.data with
            | some e2 =>
              { trace := t0 ++ [Action.rethrowCall file.content file.data],
                result := .called (.withErr e2), errAfter := some e1 }
            | none =>
              { trace := t0 ++ [Action.rethrowCall file.content file.data],
                result := .called (.withErr e1), errAfter := some e1 }
          else
            { trace := t0, result := .called (.withErr e1), errAfter := some e1 }

/-- Observable behaviour of one invocation of the fallback callback that
`handle` synthesizes when it is given no callback. -/
structure FallbackOut where
  errorCallbackInvoked : Bool
  raised : Option Err
deriving Repr, DecidableEq

/-- The fallback callback synthesized in `handle` (src/index.js lines
58-64): `function(err, file) { app.handleError(method, file, function() { throw err; }); }`.
Its body calls `app.handleError`, which only CONSTRUCTS and returns an
error-handling closure; the fallback discards that closure without ever
invoking it. The factory itself performs no side effect, so the fallback's
body has no observable effect: the error-handling closure never runs and
the thunk containing `throw err` never runs, so nothing is re-raised. -/
def fallbackNext (app : AppCfg) (method : String) (_file : Option File)
    (rethrow : String → String → Option Err) (_err : Option Err) : FallbackOut :=
  let _discardedClosure := fun f => handleErrorCb app method f true rethrow
  { errorCallbackInvoked := false, raised := none }

/-- Mutation of the file performed by `handle` before dispatch
(src/index.js lines 66-74): normalize `options` to an object, normalize
`options.handled` to a list, set `options.method` to the verb and append
the verb to `options.handled` unconditionally. -/
def pushFile (method : String) (file : File) : File :=
  let o := file.options.getD ⟨none, none, none⟩
  { file with
      options := some { o with
        handled := some (o.handled.getD [] ++ [method]),
        method := some method } }

/-- Execution of the router's middleware stack for the dispatched verb by
`router.handle` (en-route, external): steps run strictly in registration
order, stopping at the first step that passes an error. Returns the trace
of executed steps and the error handed to the completion callback. -/
def runStack (phase : Nat) : List MW → List Action × Option Err
  | [] => ([], none)
  | (i, none) :: rest =>
    let r := runStack phase rest
    (Action.mwRun phase i :: r.1, r.2)
  | (i, some e) :: _ => ([Action.mwRun phase i], some e)

/-- Result of one `handle` dispatch: the mutated file, the ordered trace of
side effects, the call delivered by the normalized completion callback (or
the raise that escaped it), the error state afterwards, and whether the
synthesized fallback stood in for a missing user callback. -/
structure HandleOut where
  file : File
  trace : List Action
  result : CbResult
  errAfter : Option Err
  usedFallback : Bool
deriving Repr, DecidableEq

/-- The `handle(method, file, next)` dispatch (src/index.js lines 53-95).
`hostStack` is the router's middleware stack for the verb, `colls` the
host's named-collection lookup, `nextIsFn` whether the caller supplied a
callable callback. When the host is templates-capable, not a collection,
and the file names a collection, dispatch is two-phase: the host stack
runs first and, only on success, the named collection's `handle` is
entered with the normalized callback. -/
def handle (app : AppCfg) (hostStack : List MW)
    (colls : String → Option Collection)
    (rethrow : String → String → Option Err)
    (method : String) (file : File) (nextIsFn : Bool) : HandleOut :=
  let f1 := pushFile method file
  let usedFallback := nextIsFn = false
  let direct : HandleOut :=
    let rr := runStack 0 hostStack
    let he := handleErrorCb app method f1 true rethrow rr.2
    { file := f1, trace := Action.emitVerb method :: rr.1 ++ he.trace,
      result := he.result, errAfter := he.errAfter, usedFallback := usedFallback }
  match (f1.options.getD ⟨none, none, none⟩).collection with
  | none => direct
  | some name =>
    if app.isTemplates = false ∨ app.isCollection = true then direct
    else
      let rr := runStack 0 hostStack
      match rr.2 with
      | some e =>
        let he := handleErrorCb app method f1 true rethrow (some e)
        { file := f1, trace := Action.emitVerb method :: rr.1 ++ he.trace,
          result := he.result, errAfter := he.errAfter, usedFallback := usedFallback }
      | none =>
        match colls name with
        | none =>
          { file := f1, trace := Action.emitVerb method :: rr.1,
            result := .thrown "Cannot read property handle of undefined",
            errAfter := none, usedFallback := usedFallback }
        | some c =>
          let he := handleErrorCb app method f1 true rethrow c.resp
          { file := f1,
            trace := Action.emitVerb method :: rr.1 ++ Action.collEnter method :: he.trace,
            result := he.result, errAfter := he.errAfter, usedFallback := usedFallback }

/-- Result of a `handleOnce` call: a raise while reading
`file.options.handled` of an absent `options`, a delegation to `handle`, a
skip that invoked `next(null, file)`, or a skip that raised because no
callable was available. -/
inductive OnceOut where
  | thrownOptions
  | dispatched (h : HandleOut)
  | skipped (f : File)
  | skippedNoCallback (f : File)
deriving Repr, DecidableEq

/-- The `handleOnce(method, file, next)` guard wrapper (src/index.js lines
112-128). Reads `file.options.handled` WITHOUT first normalizing
`file.options`, so an absent `options` raises; otherwise it lazily creates
`handled`, falls back to `file.next` when no callable callback was given,
skips with `next(null, file)` when the verb is already in `handled`, and
delegates to `handle` otherwise. -/
def handleOnce (app : AppCfg) (hostStack : List MW)
    (colls : String → Option Collection)
    (rethrow : String → String → Option Err)
    (method : String) (file : File) (nextIsFn : Bool) : OnceOut :=
  match file.options with
  | none => .thrownOptions
  | some o =>
    let o1 : FileOptions := { o with handled := some (o.handled.getD []) }
    let f1 : File := { file with options := some o1 }
    let nextFn := nextIsFn || file.hasNext
    if method ∈ o.handled.getD [] then
      if nextFn then .skipped f1 else .skippedNoCallback f1
    else
      .dispatched (handle app hostStack colls rethrow method f1 nextFn)

/-- The file state after a `handleOnce` call (the raise of the
missing-options case leaves the file untouched). -/
def onceFile (f : File) : OnceOut → File
  | .thrownOptions => f
  | .dispatched h => h.file
  | .skipped f1 => f1
  | .skippedNoCallback f1 => f1

/-- Iterated direct `handle` calls with a supplied callback, threading the
mutated file. -/
def handleIter (app : AppCfg) (hostStack : List MW)
    (colls : String → Option Collection)
    (rethrow : String → String → Option Err)
    (method : String) : Nat → File → File
  | 0, f => f
  | n + 1, f =>
    handleIter app hostStack colls rethrow method n
      (handle app hostStack colls rethrow method f true).file

/-- Iterated `handleOnce` calls with a supplied callback, threading the
mutated file. -/
def handleOnceIter (app : AppCfg) (hostStack : List MW)
    (colls : String → Option Collection)
    (rethrow : String → String → Option Err)
    (method : String) : Nat → File → File
  | 0, f => f
  | n + 1, f =>
    handleOnceIter app hostStack colls rethrow method n
      (onceFile f (handleOnce app hostStack colls rethrow method f true))

/-- Number of occurrences of the verb in the file's `handled` sequence. -/
def countV (method : String) (f : File) : Nat :=
  ((f.options.getD ⟨none, none, none⟩).handled.getD []).count method

/-! ## Sample values shared by witnesses and counterexamples -/

/-- A templates-capable, non-collection host with no error listeners. -/
def sampleApp : AppCfg := ⟨"app", true, false, false⟩

/-- A rethrow facility that returns normally. -/
def sampleRethrow : String → String → Option Err := fun _ _ => none

/-- A host with no named collections. -/
def sampleColls : String → Option Collection := fun _ => none

/-- A file with absent `options` and no `file.next`. -/
def sampleFile : File := ⟨"a.md", "a.md", "<%= x %>", "d", none, false⟩

/-- A first-sighting non-reference error with a two-line stack. -/
def errGood : Err := ⟨false, some "Error: boom\n    at mw", none, none, false, false⟩

/-- A first-sighting reference error with a two-line stack. -/
def refErrGood : Err :=
  ⟨false, some "ReferenceError: x is not defined\n    at eval", none, none, false, true⟩

/-- A first-sighting error whose `stack` is absent. -/
def badStackErr : Err := ⟨false, none, none, none, false, false⟩

/-- A collection lookup with one named collection `pages` that invokes its
callback successfully. -/
def collsPages : String → Option Collection :=
  fun n => if n = "pages" then some ⟨none⟩ else none

/-- A file declaring membership in the `pages` collection. -/
def fColl : File := ⟨"a.md", "a.md", "c", "d", some ⟨none, none, some "pages"⟩, false⟩

/-! ## Helper lemmas -/

lemma pushFile_options (v : String) (f : File) :
    (pushFile v f).options =
      some { f.options.getD ⟨none, none, none⟩ with
        handled := some ((f.options.getD ⟨none, none, none⟩).handled.getD [] ++ [v]),
        method := some v } := rfl

lemma handle_file (app : AppCfg) (hs : List MW) (colls : String → Option Collection)
    (rt : String → String → Option Err) (v : String) (f : File) (n : Bool) :
    (handle app hs colls rt v f n).file = pushFile v f := by
  unfold handle
  dsimp only
  split
  · rfl
  · split
    · rfl
    · split
      · rfl
      · split
        · rfl
        · rfl

lemma runStack_ok_trace (p : Nat) (l : List MW) (h : (runStack p l).2 = none) :
    (runStack p l).1 = l.map fun m => Action.mwRun p m.1 := by
  induction l with
  | nil => rfl
  | cons hd tl ih =>
    obtain ⟨i, me⟩ := hd
    cases me with
    | none =>
      simp only [runStack, List.map_cons] at *
      exact congrArg _ (ih h)
    | some e => simp [runStack] at h

lemma runStack_mem (p : Nat) (l : List MW) (a : Action)
    (h : a ∈ (runStack p l).1) : ∃ i, a = Action.mwRun p i := by
  induction l with
  | nil => simp [runStack] at h
  | cons hd tl ih =>
    obtain ⟨i, me⟩ := hd
    cases me with
    | none =>
      simp only [runStack, List.mem_cons] at h
      rcases h with h | h
      · exact ⟨i, h⟩
      · exact ih h
    | some e =>
      simp only [runStack, List.mem_singleton] at h
      exact ⟨i, h⟩

lemma enrichErr_handled (an v p : String) (e : Err) :
    (enrichErr an v p e).1.handled = true := by
  unfold enrichErr
  rcases e.stack with _ | s
  · rfl
  · dsimp only
    rcases (splitOnChar '\n' s.data)[1]? with _ | line <;> rfl

lemma enrichErr_refFlag (an v p : String) (e : Err) :
    (enrichErr an v p e).1.isReferenceError = e.isReferenceError := by
  unfold enrichErr
  rcases e.stack with _ | s
  · rfl
  · dsimp only
    rcases (splitOnChar '\n' s.data)[1]? with _ | line <;> rfl

lemma enrichErr_bad (an v p : String) (e : Err) (h : stackOk e = false) :
    ∃ m, enrichErr an v p e = ({ e with handled := true }, some m) := by
  unfold enrichErr
  unfold stackOk at h
  rcases hst : e.stack with _ | s
  · exact ⟨_, rfl⟩
  · rw [hst] at h
    dsimp only
    have hlt : (splitOnChar '\n' s.data).length < 2 := by
      by_contra hge
      simp [Nat.le_of_not_lt] at h hge
      omega
    have : (splitOnChar '\n' s.data)[1]? = none := by
      rw [List.getElem?_eq_none]
      omega
    rw [this]
    exact ⟨_, rfl⟩

lemma enrichErr_good (an v p : String) (e : Err) (h : stackOk e = true) :
    (enrichErr an v p e).2 = none := by
  unfold enrichErr
  unfold stackOk at h
  rcases hst : e.stack with _ | s
  · rw [hst] at h; simp at h
  · rw [hst] at h
    dsimp only
    have hge : 2 ≤ (splitOnChar '\n' s.data).length := by simpa using h
    have : ∃ line, (splitOnChar '\n' s.data)[1]? = some line := by
      have : 1 < (splitOnChar '\n' s.data).length := hge
      exact ⟨_, List.getElem?_eq_getElem this⟩
    obtain ⟨line, hline⟩ := this
    rw [hline]

lemma handleErrorCb_handled_pass (app : AppCfg) (v : String) (f : File)
    (na : Bool) (rt : String → String → Option Err) (e : Err)
    (hcall : (na || f.hasNext) = true) (hh : e.handled = true) :
    handleErrorCb app v f na rt (some e) =
      { trace := [], result := .called .noArgs, errAfter := some e } := by
  unfold handleErrorCb
  rw [hcall]
  simp [hh]

lemma handleErrorCb_first_sight (app : AppCfg) (v : String) (f : File)
    (rt : String → String → Option Err) (e : Err)
    (hh : e.handled = false) (hso : stackOk e = true) :
    (handleErrorCb app v f true rt (some e)).errAfter =
      some (enrichErr app.name v f.path e).1 := by
  unfold handleErrorCb
  simp only [Bool.true_or, hh]
  rcases hEnr : enrichErr app.name v f.path e with ⟨e1, m⟩
  cases m with
  | none =>
    norm_num
    split
    · rcases rt f.content f.data with _ | e2 <;> rfl
    · rfl
  | some msg =>
    have := enrichErr_good app.name v f.path e hso
    rw [hEnr] at this
    simp at this

lemma collEnter_notin_heTrace (app : AppCfg) (v : String) (f : File)
    (na : Bool) (rt : String → String → Option Err) (err : Option Err) (w : String) :
    Action.collEnter w ∉ (handleErrorCb app v f na rt err).trace := by
  unfold handleErrorCb
  split
  · simp
  · rcases err with _ | e
    · simp
    · dsimp only
      split
      · simp
      · rcases enrichErr app.name v f.path e with ⟨e1, m⟩
        cases m with
        | none =>
          dsimp only
          split
          · rcases rt f.content f.data with _ | e2 <;> split <;> simp
          · split <;> simp
        | some msg => simp

/-! ## Claim theorems -/

/-- C6: after `handle(v, f, cb)`, `f.options.method` equals `v` and
`f.options.handled` contains `v`; `file.options` and
`file.options.handled` are created as an empty object/sequence first when
absent. This holds for every dispatch outcome, in particular on success. -/
theorem handle_records_method_and_handled
    (app : AppCfg) (hs : List MW) (colls : String → Option Collection)
    (rt : String → String → Option Err) (v : String) (f : File) (n : Bool) :
    ∃ o : FileOptions, (handle app hs colls rt v f n).file.options = some o ∧
      o.method = some v ∧ v ∈ o.handled.getD [] := by
  rw [handle_file, pushFile_options]
  exact ⟨_, rfl, rfl, by simp⟩

/-- C9 counterexample: on a file whose `options` mapping is absent,
`handleOnce` raises while reading `file.options.handled` (it never
normalizes `file.options` itself) instead of normalizing `handled` and
proceeding. -/
theorem handleOnce_missing_options_throws :
    handleOnce sampleApp [] sampleColls sampleRethrow "onLoad" sampleFile true =
      .thrownOptions := rfl

/-- C9 amended: for a file whose `options` mapping is present, `handleOnce`
lazily normalizes `options.handled` to an empty sequence when it is absent
and proceeds without failing; a file with an absent `options` mapping
instead raises a TypeError. -/
theorem handleOnce_normalizes_when_options_present
    (app : AppCfg) (hs : List MW) (colls : String → Option Collection)
    (rt : String → String → Option Err) (v : String) (f : File) (o : FileOptions)
    (ho : f.options = some o) :
    handleOnce app hs colls rt v f true ≠ .thrownOptions ∧
    (o.handled = none →
      ∃ h, handleOnce app hs colls rt v f true = .dispatched h ∧
        h.file.options = some ⟨some [v], some v, o.collection⟩) := by
  obtain ⟨p, bn, ct, dt, fo, fn⟩ := f
  obtain ⟨oh, om, oc⟩ := o
  dsimp only at ho
  subst ho
  constructor
  · unfold handleOnce
    dsimp only
    split
    · split <;> simp
    · simp
  · intro hn
    dsimp only at hn
    subst hn
    unfold handleOnce
    dsimp only
    rw [if_neg (by simp)]
    refine ⟨_, rfl, ?_⟩
    rw [handle_file, pushFile_options]
    rfl

/-- C9 amended witness: a concrete file with `options = {}` is dispatched
by `handleOnce`, which first creates `handled` as the empty sequence. -/
theorem handleOnce_normalizes_when_options_present_w :
    (⟨"a.md", "a.md", "c", "d", some ⟨none, none, none⟩, false⟩ : File).options =
        some ⟨none, none, none⟩ ∧
      (handleOnce sampleApp [] sampleColls sampleRethrow "onLoad"
          ⟨"a.md", "a.md", "c", "d", some ⟨none, none, none⟩, false⟩ true ≠ .thrownOptions ∧
        ((⟨none, none, none⟩ : FileOptions).handled = none →
          ∃ h, handleOnce sampleApp [] sampleColls sampleRethrow "onLoad"
              ⟨"a.md", "a.md", "c", "d", some ⟨none, none, none⟩, false⟩ true =
              .dispatched h ∧
            h.file.options = some ⟨some ["onLoad"], some "onLoad", none⟩)) :=
  ⟨rfl, handleOnce_normalizes_when_options_present sampleApp [] sampleColls
    sampleRethrow "onLoad" _ _ rfl⟩

/-- C10: a first-sighting error whose stack is absent or has fewer than
two newline-separated lines makes the enrichment step raise; the callback
neither forwards the error to `next` nor performs any other effect. -/
theorem handleError_enrichment_requires_stack
    (app : AppCfg) (v : String) (f : File) (rt : String → String → Option Err)
    (e : Err) (hh : e.handled = false) (hbad : stackOk e = false) :
    ∃ m, (handleErrorCb app v f true rt (some e)).result = .thrown m ∧
      (handleErrorCb app v f true rt (some e)).trace = [] := by
  obtain ⟨m, hEnr⟩ := enrichErr_bad app.name v f.path e hbad
  unfold handleErrorCb
  simp only [Bool.true_or, hh, hEnr]
  norm_num

/-- C10 witness: a concrete error with no stack at all. -/
theorem handleError_enrichment_requires_stack_w :
    badStackErr.handled = false ∧ stackOk badStackErr = false ∧
    (∃ m, (handleErrorCb sampleApp "onLoad" sampleFile true sampleRethrow
        (some badStackErr)).result = .thrown m ∧
      (handleErrorCb sampleApp "onLoad" sampleFile true sampleRethrow
        (some badStackErr)).trace = []) :=
  ⟨rfl, rfl, handleError_enrichment_requires_stack sampleApp "onLoad" sampleFile
    sampleRethrow badStackErr rfl rfl⟩

/-- C4: the first pass of an error through the handleError callback marks
it handled and enriches it; the second pass with the same (now handled)
error invokes `next()` with no arguments and leaves the error — including
its `reason` and `source` from the first enrichment — unchanged. -/
theorem handleError_second_pass_suppressed
    (app : AppCfg) (v : String) (f : File) (rt : String → String → Option Err)
    (e : Err) (hh : e.handled = false) (hso : stackOk e = true) :
    ∃ e1 : Err,
      (handleErrorCb app v f true rt (some e)).errAfter = some e1 ∧
      e1.handled = true ∧
      handleErrorCb app v f true rt (some e1) =
        { trace := [], result := .called .noArgs, errAfter := some e1 } :=
  ⟨(enrichErr app.name v f.path e).1,
    handleErrorCb_first_sight app v f rt e hh hso,
    enrichErr_handled app.name v f.path e,
    handleErrorCb_handled_pass app v f true rt _ (by simp)
      (enrichErr_handled app.name v f.path e)⟩

/-- C4 witness: a concrete first-sighting error with a two-line stack. -/
theorem handleError_second_pass_suppressed_w :
    errGood.handled = false ∧ stackOk errGood = true ∧
    (∃ e1 : Err,
      (handleErrorCb sampleApp "onLoad" sampleFile true sampleRethrow
        (some errGood)).errAfter = some e1 ∧
      e1.handled = true ∧
      handleErrorCb sampleApp "onLoad" sampleFile true sampleRethrow (some e1) =
        { trace := [], result := .called .noArgs, errAfter := some e1 }) :=
  ⟨rfl, by decide, handleError_second_pass_suppressed sampleApp "onLoad"
    sampleFile sampleRethrow errGood rfl (by decide)⟩

/-- C5: a first-sighting reference error makes the callback invoke the
rethrow facility with `file.content` and `file.data`; when the facility
throws a new error, that new error is forwarded to `next`, otherwise the
original enriched error is forwarded. -/
theorem handleError_reference_error_rethrow
    (app : AppCfg) (v : String) (f : File) (rt : String → String → Option Err)
    (e : Err) (hh : e.handled = false) (hso : stackOk e = true)
    (href : e.isReferenceError = true) :
    Action.rethrowCall f.content f.data ∈
        (handleErrorCb app v f true rt (some e)).trace ∧
    (∀ e2, rt f.content f.data = some e2 →
      (handleErrorCb app v f true rt (some e)).result = .called (.withErr e2)) ∧
    (rt f.content f.data = none →
      (handleErrorCb app v f true rt (some e)).result =
        .called (.withErr (enrichErr app.name v f.path e).1)) := by
  have hgood := enrichErr_good app.name v f.path e hso
  have hflag := enrichErr_refFlag app.name v f.path e
  rcases hEnr : enrichErr app.name v f.path e with ⟨e1, m⟩
  rw [hEnr] at hgood hflag
  dsimp only at hgood hflag
  subst hgood
  rw [href] at hflag
  unfold handleErrorCb
  simp only [Bool.true_or, hh, hEnr, hflag]
  norm_num
  rcases hr : rt f.content f.data with _ | e2 <;> simp [hr]

/-- C5 witness: a concrete reference error against a rethrow facility that
returns normally, so the original enriched error is forwarded. -/
theorem handleError_reference_error_rethrow_w :
    refErrGood.handled = false ∧ stackOk refErrGood = true ∧
      refErrGood.isReferenceError = true ∧
    (Action.rethrowCall sampleFile.content sampleFile.data ∈
        (handleErrorCb sampleApp "onLoad" sampleFile true sampleRethrow
          (some refErrGood)).trace ∧
      (∀ e2, sampleRethrow sampleFile.content sampleFile.data = some e2 →
        (handleErrorCb sampleApp "onLoad" sampleFile true sampleRethrow
          (some refErrGood)).result = .called (.withErr e2)) ∧
      (sampleRethrow sampleFile.content sampleFile.data = none →
        (handleErrorCb sampleApp "onLoad" sampleFile true sampleRethrow
          (some refErrGood)).result =
          .called (.withErr (enrichErr sampleApp.name "onLoad" sampleFile.path
            refErrGood).1))) :=
  ⟨rfl, by decide, rfl, handleError_reference_error_rethrow sampleApp "onLoad"
    sampleFile sampleRethrow refErrGood rfl (by decide) rfl⟩

lemma handleOnce_step_mem (app : AppCfg) (hs : List MW)
    (colls : String → Option Collection) (rt : String → String → Option Err)
    (v : String) (g : File) (og : FileOptions)
    (hg : g.options = some og) (hm : v ∈ og.handled.getD []) :
    handleOnce app hs colls rt v g true =
      .skipped { g with options := some { og with handled := some (og.handled.getD []) } } := by
  unfold handleOnce
  rw [hg]
  dsimp only
  rw [if_pos hm]
  simp

lemma handleOnce_step_new (app : AppCfg) (hs : List MW)
    (colls : String → Option Collection) (rt : String → String → Option Err)
    (v : String) (g : File) (og : FileOptions)
    (hg : g.options = some og) (hm : v ∉ og.handled.getD []) :
    handleOnce app hs colls rt v g true =
      .dispatched (handle app hs colls rt v
        { g with options := some { og with handled := some (og.handled.getD []) } } true) := by
  unfold handleOnce
  rw [hg]
  dsimp only
  rw [if_neg hm]
  simp

/-- C3: with a callback supplied and `options` present, `handleOnce`
dispatches a fresh verb through `handle` and, called again on the
resulting file, skips dispatch entirely and invokes `cb(null, file)`
immediately; a verb already present is skipped both times, so two calls in
sequence run the underlying dispatch at most once. -/
theorem handleOnce_dispatches_at_most_once
    (app : AppCfg) (hs : List MW) (colls : String → Option Collection)
    (rt : String → String → Option Err) (v : String) (f : File) (o : FileOptions)
    (ho : f.options = some o) :
    (v ∉ o.handled.getD [] →
      ∃ h, handleOnce app hs colls rt v f true = .dispatched h ∧
        handleOnce app hs colls rt v h.file true = .skipped h.file) ∧
    (v ∈ o.handled.getD [] →
      ∃ f1, handleOnce app hs colls rt v f true = .skipped f1 ∧
        handleOnce app hs colls rt v f1 true = .skipped f1) := by
  constructor
  · intro hnot
    refine ⟨_, handleOnce_step_new app hs colls rt v f o ho hnot, ?_⟩
    rw [handle_file]
    rw [handleOnce_step_mem app hs colls rt v _ _ (pushFile_options v _) (by simp)]
    rfl
  · intro hmem
    refine ⟨_, handleOnce_step_mem app hs colls rt v f o ho hmem, ?_⟩
    rw [handleOnce_step_mem app hs colls rt v _ _ rfl (by simpa using hmem)]
    rfl

/-- C3 witness: a concrete fresh file; the first call dispatches, the
second skips with `cb(null, file)`. -/
theorem handleOnce_dispatches_at_most_once_w :
    (⟨"a.md", "a.md", "c", "d", some ⟨none, none, none⟩, false⟩ : File).options =
        some ⟨none, none, none⟩ ∧
      (("onLoad" ∉ (⟨none, none, none⟩ : FileOptions).handled.getD [] →
        ∃ h, handleOnce sampleApp [] sampleColls sampleRethrow "onLoad"
            ⟨"a.md", "a.md", "c", "d", some ⟨none, none, none⟩, false⟩ true =
            .dispatched h ∧
          handleOnce sampleApp [] sampleColls sampleRethrow "onLoad" h.file true =
            .skipped h.file) ∧
      ("onLoad" ∈ (⟨none, none, none⟩ : FileOptions).handled.getD [] →
        ∃ f1, handleOnce sampleApp [] sampleColls sampleRethrow "onLoad"
            ⟨"a.md", "a.md", "c", "d", some ⟨none, none, none⟩, false⟩ true =
            .skipped f1 ∧
          handleOnce sampleApp [] sampleColls sampleRethrow "onLoad" f1 true =
            .skipped f1)) :=
  ⟨rfl, handleOnce_dispatches_at_most_once sampleApp [] sampleColls sampleRethrow
    "onLoad" _ _ rfl⟩

lemma countV_handle (app : AppCfg) (hs : List MW) (colls : String → Option Collection)
    (rt : String → String → Option Err) (v : String) (f : File) (n : Bool) :
    countV v (handle app hs colls rt v f n).file = countV v f + 1 := by
  rw [handle_file]
  unfold countV pushFile
  dsimp only
  simp [List.count_append]

lemma handleIter_count (app : AppCfg) (hs : List MW) (colls : String → Option Collection)
    (rt : String → String → Option Err) (v : String) :
    ∀ (n : Nat) (f : File),
      countV v (handleIter app hs colls rt v n f) = countV v f + n := by
  intro n
  induction n with
  | zero => intro f; rfl
  | succ k ih =>
    intro f
    unfold handleIter
    rw [ih, countV_handle]
    omega

lemma handleOnceIter_count (app : AppCfg) (hs : List MW) (colls : String → Option Collection)
    (rt : String → String → Option Err) (v : String) :
    ∀ (n : Nat) (f : File) (o : FileOptions), f.options = some o →
      (o.handled.getD []).count v ≤ 1 →
      countV v (handleOnceIter app hs colls rt v n f) ≤ 1 := by
  intro n
  induction n with
  | zero =>
    intro f o ho hc
    unfold handleOnceIter countV
    rw [ho]
    exact hc
  | succ k ih =>
    intro f o ho hc
    unfold handleOnceIter
    by_cases hmem : v ∈ o.handled.getD []
    · rw [handleOnce_step_mem app hs colls rt v f o ho hmem]
      dsimp [onceFile]
      exact ih _ _ rfl (by simpa using hc)
    · rw [handleOnce_step_new app hs colls rt v f o ho hmem]
      dsimp [onceFile]
      rw [handle_file]
      refine ih _ _ (pushFile_options v _) ?_
      dsimp only
      have h0 : (o.handled.getD []).count v = 0 := List.count_eq_zero.mpr hmem
      simp [List.count_append, h0]

/-- C8: a sequence of `n` direct `handle` calls for the same verb appends
the verb `n` times to `file.options.handled`, while any number of
`handleOnce` calls starting from a file not yet handled for that verb
leaves at most one occurrence. -/
theorem handle_appends_handleOnce_guards
    (app : AppCfg) (hs : List MW) (colls : String → Option Collection)
    (rt : String → String → Option Err) (v : String) (n : Nat) (f : File)
    (o : FileOptions) (ho : f.options = some o) (hfresh : v ∉ o.handled.getD []) :
    countV v (handleIter app hs colls rt v n f) = countV v f + n ∧
    countV v (handleOnceIter app hs colls rt v n f) ≤ 1 := by
  refine ⟨handleIter_count app hs colls rt v n f, ?_⟩
  exact handleOnceIter_count app hs colls rt v n f o ho
    (by rw [List.count_eq_zero.mpr hfresh]; omega)

/-- C8 witness: three repeated `handle` calls leave three occurrences of
the verb; three `handleOnce` calls leave at most one. -/
theorem handle_appends_handleOnce_guards_w :
    (⟨"a.md", "a.md", "c", "d", some ⟨none, none, none⟩, false⟩ : File).options =
        some ⟨none, none, none⟩ ∧
      "onLoad" ∉ ((⟨none, none, none⟩ : FileOptions).handled.getD []) ∧
      (countV "onLoad" (handleIter sampleApp [] sampleColls sampleRethrow "onLoad" 3
          ⟨"a.md", "a.md", "c", "d", some ⟨none, none, none⟩, false⟩) =
        countV "onLoad" ⟨"a.md", "a.md", "c", "d", some ⟨none, none, none⟩, false⟩ + 3 ∧
      countV "onLoad" (handleOnceIter sampleApp [] sampleColls sampleRethrow "onLoad" 3
          ⟨"a.md", "a.md", "c", "d", some ⟨none, none, none⟩, false⟩) ≤ 1) :=
  ⟨rfl, by simp, handle_appends_handleOnce_guards sampleApp [] sampleColls
    sampleRethrow "onLoad" 3 _ _ rfl (by simp)⟩

/-- C7 counterexample: with a callable `next` bound — a case in which the
claim says the callback proceeds without raising — an unhandled error
whose `stack` is absent still makes the callback raise a TypeError during
enrichment, and that raise is not the missing-callback guard. -/
theorem handleError_guard_iff_refuted :
    (handleErrorCb sampleApp "onLoad" sampleFile true sampleRethrow
        (some badStackErr)).result =
      .thrown "Cannot read property split of undefined" ∧
    "Cannot read property split of undefined" ≠ cbGuardMsg :=
  ⟨rfl, by decide⟩

/-- C7 amended: the callback raises the `expected a callback function`
TypeError exactly when neither the bound `next` argument nor `file.next`
is callable at invocation time; when a callable is resolvable and every
error it is handed is either already handled or carries a two-line stack,
it proceeds without raising. (An unhandled error with a malformed stack
can still raise during enrichment — the C10 theorem.) -/
theorem handleError_guard_characterization
    (app : AppCfg) (v : String) (f : File) (na : Bool)
    (rt : String → String → Option Err) (err : Option Err)
    (hgood : ∀ e, err = some e → e.handled = true ∨ stackOk e = true) :
    ((handleErrorCb app v f na rt err).result = .thrown cbGuardMsg ↔
      na = false ∧ f.hasNext = false) ∧
    ((na || f.hasNext) = true →
      ∃ c, (handleErrorCb app v f na rt err).result = .called c) := by
  have hcall : (na || f.hasNext) = true →
      ∃ c, (handleErrorCb app v f na rt err).result = .called c := by
    intro hc
    unfold handleErrorCb
    rw [hc]
    norm_num
    rcases err with _ | e
    · exact ⟨_, rfl⟩
    · dsimp only
      cases hhe : e.handled with
      | true =>
        rw [if_pos (by simp [hhe])]
        exact ⟨_, rfl⟩
      | false =>
        rw [if_neg (by simp [hhe])]
        have hso : stackOk e = true :=
          (hgood e rfl).resolve_left (by simp [hhe])
        have h2 := enrichErr_good app.name v f.path e hso
        rcases hEnr : enrichErr app.name v f.path e with ⟨e1, m⟩
        rw [hEnr] at h2
        dsimp only at h2
        subst h2
        dsimp only
        cases he1 : e1.isReferenceError with
        | false => simp [he1]
        | true =>
          rcases hr : rt f.content f.data with _ | e2 <;> simp [he1, hr]
  refine ⟨⟨?_, ?_⟩, hcall⟩
  · intro hth
    by_contra hne
    have hc : (na || f.hasNext) = true := by
      cases hna : na <;> cases hfn : f.hasNext <;> simp_all
    obtain ⟨c, hcres⟩ := hcall hc
    rw [hcres] at hth
    exact CbResult.noConfusion hth
  · rintro ⟨h1, h2⟩
    unfold handleErrorCb
    rw [h1, h2]
    rfl

/-- C7 amended witness: with no callable resolvable, the callback raises
the guard TypeError; the iff is exercised at a concrete input. -/
theorem handleError_guard_characterization_w :
    (∀ e : Err, (none : Option Err) = some e →
        e.handled = true ∨ stackOk e = true) ∧
    (((handleErrorCb sampleApp "onLoad" sampleFile false sampleRethrow
          none).result = .thrown cbGuardMsg ↔
        false = false ∧ sampleFile.hasNext = false) ∧
      ((false || sampleFile.hasNext) = true →
        ∃ c, (handleErrorCb sampleApp "onLoad" sampleFile false sampleRethrow
          none).result = .called c)) :=
  ⟨nofun, handleError_guard_characterization sampleApp "onLoad" sampleFile false
    sampleRethrow none nofun⟩

lemma pushFile_collection (v : String) (f : File) :
    ((pushFile v f).options.getD ⟨none, none, none⟩).collection =
      (f.options.getD ⟨none, none, none⟩).collection := rfl

/-- C2: on a templates-capable non-collection host with a file naming an
existing collection, a clean host phase runs every host middleware, in
order, strictly before the collection's `handle` is entered, and the
normalized callback then reports the collection's outcome; a host-phase
error is forwarded to the normalized callback and the collection's
`handle` is never entered. -/
theorem handle_two_phase_ordering
    (app : AppCfg) (hs : List MW) (colls : String → Option Collection)
    (rt : String → String → Option Err) (v : String) (f : File)
    (name : String) (c : Collection)
    (hT : app.isTemplates = true) (hC : app.isCollection = false)
    (hcoll : (f.options.getD ⟨none, none, none⟩).collection = some name)
    (hlk : colls name = some c) :
    ((runStack 0 hs).2 = none →
      (handle app hs colls rt v f true).trace =
        Action.emitVerb v :: ((hs.map fun m => Action.mwRun 0 m.1) ++
          Action.collEnter v :: (handleErrorCb app v (pushFile v f) true rt
            c.resp).trace) ∧
      (handle app hs colls rt v f true).result =
        (handleErrorCb app v (pushFile v f) true rt c.resp).result) ∧
    (∀ e, (runStack 0 hs).2 = some e →
      Action.collEnter v ∉ (handle app hs colls rt v f true).trace ∧
      (handle app hs colls rt v f true).result =
        (handleErrorCb app v (pushFile v f) true rt (some e)).result) := by
  unfold handle
  dsimp only
  rw [pushFile_collection, hcoll]
  dsimp only
  rw [if_neg (by simp [hT, hC])]
  constructor
  · intro h0
    rw [runStack_ok_trace 0 hs h0] at *
    simp only [h0, hlk]
    exact ⟨rfl, trivial⟩
  · intro e he
    simp only [he]
    refine ⟨?_, trivial⟩
    intro hmem
    rcases List.mem_cons.mp hmem with h | h
    · exact Action.noConfusion h
    rcases List.mem_append.mp h with h | h
    · obtain ⟨i, hi⟩ := runStack_mem 0 hs _ h
      exact Action.noConfusion hi
    · exact collEnter_notin_heTrace app v (pushFile v f) true rt (some e) v h

/-- C2 witness: one clean host middleware, a file in the `pages`
collection, and a collection that succeeds. -/
theorem handle_two_phase_ordering_w :
    sampleApp.isTemplates = true ∧ sampleApp.isCollection = false ∧
    ((fColl.options.getD ⟨none, none, none⟩).collection = some "pages" ∧
      collsPages "pages" = some ⟨none⟩) ∧
    (((runStack 0 [(1, none)]).2 = none →
      (handle sampleApp [(1, none)] collsPages sampleRethrow "onLoad" fColl
          true).trace =
        Action.emitVerb "onLoad" ::
          (([(1, (none : Option Err))].map fun m => Action.mwRun 0 m.1) ++
          Action.collEnter "onLoad" ::
            (handleErrorCb sampleApp "onLoad" (pushFile "onLoad" fColl) true
              sampleRethrow (Collection.mk none).resp).trace) ∧
      (handle sampleApp [(1, none)] collsPages sampleRethrow "onLoad" fColl
          true).result =
        (handleErrorCb sampleApp "onLoad" (pushFile "onLoad" fColl) true
          sampleRethrow (Collection.mk none).resp).result) ∧
    (∀ e, (runStack 0 [(1, none)]).2 = some e →
      Action.collEnter "onLoad" ∉
        (handle sampleApp [(1, none)] collsPages sampleRethrow "onLoad" fColl
          true).trace ∧
      (handle sampleApp [(1, none)] collsPages sampleRethrow "onLoad" fColl
          true).result =
        (handleErrorCb sampleApp "onLoad" (pushFile "onLoad" fColl) true
          sampleRethrow (some e)).result)) :=
  ⟨rfl, rfl, ⟨rfl, rfl⟩, handle_two_phase_ordering sampleApp [(1, none)]
    collsPages sampleRethrow "onLoad" fColl "pages" ⟨none⟩ rfl rfl rfl rfl⟩

/-- C1 (code bug): when `handle` is called with no callback and a
middleware passes an error, the synthesized fallback receives the enriched
error and does nothing with it — the error-handling closure constructed by
`handleError` inside the fallback is never invoked and the error is not
re-raised, contrary to the documented intent of the dead `throw err`
thunk. -/
theorem handle_fallback_swallows_error :
    (handle sampleApp [(1, some errGood)] sampleColls sampleRethrow "onLoad"
        sampleFile false).usedFallback = true ∧
    (handle sampleApp [(1, some errGood)] sampleColls sampleRethrow "onLoad"
        sampleFile false).result =
      .called (.withErr (enrichErr "app" "onLoad" "a.md" errGood).1) ∧
    fallbackNext sampleApp "onLoad" none sampleRethrow
        (some (enrichErr "app" "onLoad" "a.md" errGood).1) =
      { errorCallbackInvoked := false, raised := none } :=
  ⟨rfl, by decide, rfl⟩

end BaseRoutes
